import Mathlib

/-!
Verification of the structural-file transformation pipeline in
`src/backend/analysis1.py`: the pose splitter (`split_pdbqt_models`), the
coordinate sanitizer (`sanitize_coordinates`), the ligand chain/record-type
normalizer (`ensure_ligand_chain_and_hetatm`), the receptor/ligand merger
(`merge_receptor_and_ligand`) and the cleaner (`minimal_clean_pdb`).

Files are modelled as lists of lines (`List String`), each line without its
trailing newline, matching the `rstrip("\n")` / `readlines` handling in the
source.  Python string primitives used by the code (`strip`, `upper`,
`startswith`, slicing, indexing, `ljust`) are embedded as functions on the
underlying character list.  Python `float` values are modelled exactly with
rationals plus explicit `inf`/`nan` constructors; the only divergence is that
a decimal literal too large for IEEE double (such as `1e999`, which Python
parses as `inf`) is kept as a finite rational here — both models reject such
a coordinate (one through the non-finite check, one through the 500.0 bound),
so every sanitizer verdict agrees, and the 8-character PDB coordinate fields
cannot express a value whose double rounding crosses the 500.0 bound.
-/

namespace FrameworkVS

/-! ## Python string primitives -/

/-- Whitespace characters removed by Python `str.strip()` (ASCII subset). -/
def pyWS (c : Char) : Bool :=
  c = ' ' || c = '\t' || c = '\n' || c = '\r' || c = '\x0b' || c = '\x0c'

/-- `l` with leading and trailing whitespace characters removed. -/
def stripChars (l : List Char) : List Char :=
  ((l.dropWhile pyWS).reverse.dropWhile pyWS).reverse

/-- Python `s.strip()`. -/
def pyStrip (s : String) : String := ⟨stripChars s.data⟩

/-- Python `s.upper()` (ASCII case mapping, which agrees with Python on the
record keywords involved). -/
def pyUpper (s : String) : String := ⟨s.data.map Char.toUpper⟩

/-- Python `s.startswith(p)`. -/
def pyStarts (s p : String) : Bool := p.data.isPrefixOf s.data

/-- Python `s[a:b]` (for `0 ≤ a ≤ b`). -/
def pySlice (s : String) (a b : Nat) : String := ⟨(s.data.drop a).take (b - a)⟩

/-- Python `len(s)`. -/
def strLen (s : String) : Nat := s.data.length

/-- Python `s[i]` for an in-range index (default is irrelevant under the
length guards in the code). -/
def charAt (s : String) (i : Nat) : Char := s.data.getD i ' '

/-- Python `s.ljust(80)`. -/
def ljust80 (s : String) : String :=
  ⟨s.data ++ List.replicate (80 - s.data.length) ' '⟩

/-! ## Python `float(...)` model

`float` strips whitespace, accepts an optional sign followed by `inf`,
`infinity` or `nan` (case-insensitive) or a decimal literal: a digit group
(underscores allowed between digits), an optional fractional part, and an
optional exponent.  The numeric value is kept as an exact rational. -/

/-- A parsed Python float.  A finite decimal literal is kept exactly as a
mantissa/exponent pair denoting `m * 10 ^ e` (see `pyVal`); this keeps every
computation in kernel-reducible integer arithmetic. -/
inductive PyFloat where
  | num (m : Int) (e : Int)
  | inf
  | nan
deriving DecidableEq

/-- The exact rational value `m * 10 ^ e` of a finite parse result. -/
def pyVal (m e : Int) : ℚ := (m : ℚ) * (10 : ℚ) ^ e

/-- The mantissa/exponent pair of a finite parse result. -/
def finiteVal : PyFloat → Option (Int × Int)
  | .num m e => some (m, e)
  | _ => none

/-- Is the value `nan` or `inf` (Python `math.isnan(v) or math.isinf(v)`)? -/
def nonFinite : PyFloat → Bool
  | .num _ _ => false
  | _ => true

/-- Does the (finite) value exceed 500 in absolute value?  Computed on
integers: `500 < |m| * 10 ^ e` when `e ≥ 0`, and `500 * 10 ^ (-e) < |m|`
otherwise. -/
def absGt500 : PyFloat → Bool
  | .num m e =>
    if 0 ≤ e then decide ((500 : Nat) < m.natAbs * 10 ^ e.toNat)
    else decide ((500 : Nat) * 10 ^ (-e).toNat < m.natAbs)
  | _ => false

/-- Consume an optional leading sign; `true` means negative. -/
def readSign : List Char → Bool × List Char
  | '-' :: r => (true, r)
  | '+' :: r => (false, r)
  | l => (false, l)

def digitVal (c : Char) : Nat := c.toNat - 48

/-- Does the list start with a digit? -/
def headIsDigit : List Char → Bool
  | c :: _ => c.isDigit
  | [] => false

/-- Consume a run of digits, allowing a single underscore between two
digits (Python numeric-literal underscores).  Returns the accumulated value,
the number of digits consumed and the unconsumed remainder. -/
def digitsAux : List Char → Nat → Nat → Nat × Nat × List Char
  | [], acc, n => (acc, n, [])
  | c :: rest, acc, n =>
    if c.isDigit then digitsAux rest (10 * acc + digitVal c) (n + 1)
    else if c = '_' ∧ n ≠ 0 ∧ headIsDigit rest then digitsAux rest acc n
    else (acc, n, c :: rest)

/-- Parse the optional exponent part; the whole remainder must be consumed. -/
def parseExpPart (r : List Char) : Option Int :=
  match r with
  | [] => some 0
  | c :: r2 =>
    if c = 'e' ∨ c = 'E' then
      let sgn := readSign r2
      let d := digitsAux sgn.2 0 0
      if d.2.1 ≠ 0 ∧ d.2.2 = [] then
        some (if sgn.1 then -(d.1 : Int) else (d.1 : Int))
      else none
    else none

/-- Parse an unsigned decimal literal (digits, optional `.` fraction,
optional exponent) into a mantissa/exponent pair; `none` on any syntax
error.  `iii.fff e x` has value `(iii * 10 ^ |fff| + fff) * 10 ^ (x - |fff|)`. -/
def parseDecimal (cs : List Char) : Option (Int × Int) :=
  let d1 := digitsAux cs 0 0
  match d1.2.2 with
  | '.' :: r2 =>
    let d2 := digitsAux r2 0 0
    if d1.2.1 = 0 ∧ d2.2.1 = 0 then none
    else (parseExpPart d2.2.2).map fun ex =>
      (((d1.1 * 10 ^ d2.2.1 + d2.1 : Nat) : Int), ex - (d2.2.1 : Int))
  | _ =>
    if d1.2.1 = 0 then none
    else (parseExpPart d1.2.2).map fun ex => ((d1.1 : Int), ex)

def lowerList (l : List Char) : List Char := l.map Char.toLower

/-- Python `float(s)` on a whitespace-stripped character list. -/
def pyFloatOfChars (cs : List Char) : Option PyFloat :=
  let sgn := readSign cs
  if sgn.2 = [] then none
  else if lowerList sgn.2 = "inf".data ∨ lowerList sgn.2 = "infinity".data then
    some PyFloat.inf
  else if lowerList sgn.2 = "nan".data then some PyFloat.nan
  else (parseDecimal sgn.2).map fun me =>
    PyFloat.num (if sgn.1 then -me.1 else me.1) me.2

/-- Python `float(s)` (a `ValueError` is `none`; the caller's bare `except`
turns it into rejection). -/
def pyFloat (s : String) : Option PyFloat := pyFloatOfChars (stripChars s.data)

/-! ## sanitize_coordinates (src/backend/analysis1.py lines 614-637) -/

/-- Embedding of `sanitize_coordinates`.  Non-atom lines pass through
unchanged; an atom line is rejected when it is shorter than 55 characters,
when any of the three fixed-width coordinate fields `line[30:38]`,
`line[38:46]`, `line[46:54]` fails to parse as a float, parses as
`nan`/`inf`, or exceeds 500 in absolute value.  (`float(f.strip())` in the
source equals `pyFloat` here because `float` itself strips whitespace.) -/
def sanitize_coordinates (line : String) : Option String :=
  if ¬ (pyStarts line "ATOM" || pyStarts line "HETATM") then some line
  else if strLen line < 55 then none
  else
    match pyFloat (pySlice line 30 38), pyFloat (pySlice line 38 46),
          pyFloat (pySlice line 46 54) with
    | some x, some y, some z =>
      if nonFinite x || nonFinite y || nonFinite z then none
      else if absGt500 x || absGt500 y || absGt500 z then none
      else some line
    | _, _, _ => none

/-- The three fixed-width coordinate fields of an atom line. -/
def coordFields (line : String) : List String :=
  [pySlice line 30 38, pySlice line 38 46, pySlice line 46 54]

/-- A field parses as a finite float with this mantissa/exponent pair
(value `pyVal m e`). -/
def finiteParse (s : String) : Option (Int × Int) := (pyFloat s).bind finiteVal

/-- Does the line start with `ATOM` or `HETATM`? -/
def isAtomLine (l : String) : Bool := pyStarts l "ATOM" || pyStarts l "HETATM"

example : pyFloat "   1.000" = some (PyFloat.num 1000 (-3)) := by decide
example : pyFloat " -12.500" = some (PyFloat.num (-12500) (-3)) := by decide
example : pyFloat "1.5e2" = some (PyFloat.num 15 1) := by decide
example : pyFloat "nan" = some PyFloat.nan := by decide
example : pyFloat "-Infinity" = some PyFloat.inf := by decide
example : pyFloat "1_0.5" = some (PyFloat.num 105 (-1)) := by decide
example : pyFloat "_1" = none := by decide
example : pyFloat "1._5" = none := by decide
example : pyFloat "" = none := by decide
example : pyFloat "abc" = none := by decide
example : pyFloat ".5" = some (PyFloat.num 5 (-1)) := by decide
example : pyFloat "1." = some (PyFloat.num 1 0) := by decide
example : pyFloat "." = none := by decide
example : pyFloat "1e" = none := by decide
example : pyFloat "1e+2" = some (PyFloat.num 1 2) := by decide

/-! ## Record-keyword predicates

The cleaner and the splitter both classify a line through
`line.strip().upper().startswith(...)`; the merger and the sanitizer test
prefixes of the raw line. -/

def isModelLine (l : String) : Bool := pyStarts (pyUpper (pyStrip l)) "MODEL"

def isEndmdlLine (l : String) : Bool := pyStarts (pyUpper (pyStrip l)) "ENDMDL"

def isConectLine (l : String) : Bool := pyStarts (pyUpper (pyStrip l)) "CONECT"

def isBlankLine (l : String) : Bool := pyStrip l = ""

/-- Python `s[a:]`. -/
def pyDrop (s : String) (a : Nat) : String := ⟨s.data.drop a⟩

/-! ## minimal_clean_pdb (src/backend/analysis1.py lines 644-704)

The loop body of `minimal_clean_pdb`: MODEL/ENDMDL lines flip the
`in_model` flag and are dropped, every line inside a model block is dropped,
CONECT lines are dropped, and every other line goes through the sanitizer. -/

def cleanLoop : Bool → List String → List String
  | _, [] => []
  | inModel, l :: rest =>
    if isModelLine l then cleanLoop true rest
    else if isEndmdlLine l then cleanLoop false rest
    else if inModel then cleanLoop inModel rest
    else if isConectLine l then cleanLoop inModel rest
    else
      match sanitize_coordinates l with
      | none => cleanLoop inModel rest
      | some fixed => fixed :: cleanLoop inModel rest

/-- The `while cleaned_lines and cleaned_lines[-1].strip() == "" : pop()`
loop: remove trailing blank lines. -/
def dropTrailingBlank (ls : List String) : List String :=
  (ls.reverse.dropWhile isBlankLine).reverse

/-- Does the last line satisfy `l.upper().startswith("END")` (no strip)? -/
def endsWithEND (ls : List String) : Bool :=
  match ls.getLast? with
  | some l => pyStarts (pyUpper l) "END"
  | none => false

/-- The `cleaned_lines` list right after the loop and the trailing-blank
pop. -/
def cleanedLines (lines : List String) : List String :=
  dropTrailingBlank (cleanLoop false lines)

/-- Embedding of `minimal_clean_pdb` on the list of input lines.  The
`RuntimeError` raised when no atom record survives is the `error` case; it
is raised before the output file is opened, so no output is written then. -/
def minimal_clean_pdb (lines : List String) : Except String (List String) :=
  if (cleanedLines lines).any isAtomLine then
    Except.ok (if endsWithEND (cleanedLines lines) then cleanedLines lines
      else cleanedLines lines ++ ["END"])
  else
    Except.error "minimal_clean_pdb: no ATOM/HETATM records remain after cleaning."

/-! ## split_pdbqt_models (src/backend/analysis1.py lines 465-529)

A produced pose is modelled as its number (the `model_idx` used in the
output filename) paired with the list of lines written to its file. -/

structure SplitState where
  produced : List (Nat × List String)
  header : List String
  current : List String
  modelIdx : Nat
  inModel : Bool
  sawModel : Bool
deriving DecidableEq

def initSplit : SplitState := ⟨[], [], [], 0, false, false⟩

/-- The `if in_model and current:` flush: write `header + current +
["ENDMDL"]` as the next pose and reset `current`. -/
def flushPose (st : SplitState) : SplitState :=
  if st.inModel ∧ st.current ≠ [] then
    { st with
      produced := st.produced ++
        [(st.modelIdx + 1, st.header ++ st.current ++ ["ENDMDL"])],
      modelIdx := st.modelIdx + 1,
      current := [] }
  else st

def splitStep (st : SplitState) (ln : String) : SplitState :=
  if isModelLine ln then { flushPose st with inModel := true, sawModel := true }
  else if isEndmdlLine ln then { flushPose st with inModel := false }
  else if ¬ st.sawModel then { st with header := st.header ++ [ln] }
  else if st.inModel then { st with current := st.current ++ [ln] }
  else st

/-- Embedding of `split_pdbqt_models`: fold the loop over the lines, run the
final flush, and fall back to a single pose holding a copy of the whole
input when nothing was produced (`shutil.copyfile`). -/
def split_pdbqt_models (lines : List String) : List (Nat × List String) :=
  if (flushPose (lines.foldl splitStep initSplit)).produced = [] then [(1, lines)]
  else (flushPose (lines.foldl splitStep initSplit)).produced

/-! ## ensure_ligand_chain_and_hetatm (src/backend/analysis1.py lines 531-567) -/

/-- The chain-id column of every atom line wide enough to have one: the
`existing_chains` set of `ensure_ligand_chain_and_hetatm` and the
`receptor_chains` set of `merge_receptor_and_ligand` (there `len(ln) > 21`
is tested on the raw line still carrying `"\n"`; the only divergence is
that a 21-character atom line contributes `'\n'` to the Python set, which
can never collide with an uppercase letter). -/
def chainIds (lines : List String) : List Char :=
  (lines.filter fun ln => isAtomLine ln && 21 < strLen ln).map fun ln => charAt ln 21

def asciiUppercase : List Char := "ABCDEFGHIJKLMNOPQRSTUVWXYZ".data

/-- The chain chosen by `ensure_ligand_chain_and_hetatm`: a supplied
`desired_chain` is used as-is; otherwise `'L'` unless the ligand itself
already uses it, then the first uppercase letter absent from the ligand's
own chain column, with `'L'` again as the `next(..., "L")` default. -/
def ensureChainChoice (lines : List String) (desired : Option Char) : Char :=
  match desired with
  | some d => d
  | none =>
    let ex := chainIds lines
    if 'L' ∉ ex then 'L'
    else
      match asciiUppercase.find? fun c => decide (c ∉ ex) with
      | some c => c
      | none => 'L'

/-- `new_ln[:21] + chain + new_ln[22:]`. -/
def spliceChain21 (c : Char) (s : String) : String :=
  ⟨s.data.take 21 ++ [c] ++ s.data.drop 22⟩

/-- `if len(new_ln) < 80: new_ln = new_ln.ljust(80)`. -/
def pad80 (s : String) : String := if strLen s < 80 then ljust80 s else s

/-- Per-line rewrite of `ensure_ligand_chain_and_hetatm`: atom lines
shorter than 22 characters are kept unchanged; others are coerced to
`HETATM`, get the chain character at index 21, and are padded to 80. -/
def ensureTransformLine (chain : Char) (ln : String) : String :=
  if isAtomLine ln then
    if strLen ln < 22 then ln
    else pad80 (spliceChain21 chain ("HETATM" ++ pyDrop ln 6))
  else ln

def ensure_ligand_chain_and_hetatm (lines : List String) (desired : Option Char) :
    List String :=
  lines.map (ensureTransformLine (ensureChainChoice lines desired))

/-! ## merge_receptor_and_ligand (src/backend/analysis1.py lines 573-612) -/

/-- `read_atoms`: keep lines not starting with MODEL/ENDMDL/END (`TER`
lines are kept — no prefix in the tuple matches them). -/
def keepMergeLine (ln : String) : Bool :=
  !(pyStarts ln "MODEL" || pyStarts ln "ENDMDL" || pyStarts ln "END")

/-- The merger's `available` list: uppercase letters not in
`receptor_chains`, in `A..Z` order. -/
def availableChains (rc : List Char) : List Char :=
  asciiUppercase.filter fun c => decide (c ∉ rc)

/-- The ligand chain chosen by the merger: the preferred chain if still
available, else the first available letter; `none` models the uncaught
`IndexError` of `available[0]` when all 26 letters are taken. -/
def mergeLigChain (rc : List Char) (pref : Char) : Option Char :=
  if pref ∈ availableChains rc then some pref else (availableChains rc).head?

/-- The merger's `rest = ln[6:] if len(ln) > 6 else ""`. -/
def mergeRest (ln : String) : String := if 6 < strLen ln then pyDrop ln 6 else ""

/-- The merger's `new_ln = "HETATM" + rest`. -/
def mergeN1 (ln : String) : String := "HETATM" ++ mergeRest ln

/-- The merger's conditional chain write (only when at least 22 wide). -/
def mergeN2 (lc : Char) (ln : String) : String :=
  if 22 ≤ strLen (mergeN1 ln) then spliceChain21 lc (mergeN1 ln) else mergeN1 ln

/-- Per-line rewrite of the merger's ligand loop: atom lines are coerced to
`HETATM`, get the chain character at index 21 when at least 22 characters
wide, and are padded to 80. -/
def mergeTransformLine (lc : Char) (ln : String) : String :=
  if isAtomLine ln then pad80 (mergeN2 lc ln) else ln

/-- Embedding of `merge_receptor_and_ligand`: receptor lines (filtered by
`read_atoms`) verbatim, one `TER`, the transformed ligand lines, one `END`. -/
def merge_receptor_and_ligand (receptor ligand : List String) (pref : Char) :
    Option (List String) :=
  match mergeLigChain (chainIds receptor) pref with
  | none => none
  | some lc =>
    some (receptor.filter keepMergeLine ++ ["TER"] ++
      (ligand.filter keepMergeLine).map (mergeTransformLine lc) ++ ["END"])

/-! ## Renumbering (§4.6 of the spec)

No implementation of `clean(..., renumber := true)` exists under `src/`;
only the simple `minimal_clean_pdb` path is present. -/

/-- Modelled from the spec: the missing renumbering pass of
`clean(records, renumber := true)` — "build an old→new serial map by
visiting atom records in file order and assigning new serials densely from
1; rewrite each atom record's serial".  Each surviving atom record, in file
order, is paired with its new serial. -/
def renumberPass (atoms : List String) : List (Nat × String) :=
  atoms.enum.map fun p => (p.1 + 1, p.2)

/-- The atom records that survive sanitization inside the cleaner. -/
def survivingAtoms (lines : List String) : List String :=
  (cleanLoop false lines).filter isAtomLine

/-- The serials of the renumbered output atoms. -/
def outputSerials (lines : List String) : List Nat :=
  (renumberPass (survivingAtoms lines)).map Prod.fst

/-! ## Block structure of a multi-model stream (for the split theorems)

A well-formed pose block, as the splitter sees it: a `MODEL` line, the body
lines, an `ENDMDL` line, and stray content before the next `MODEL`. -/

def blockLines : String × List String × String × List String → List String
  | (m, b, e, j) => m :: (b ++ e :: j)

def blockModel : String × List String × String × List String → String
  | (m, _, _, _) => m

def blockBody : String × List String × String × List String → List String
  | (_, b, _, _) => b

def blockEnd : String × List String × String × List String → String
  | (_, _, e, _) => e

def blockJunk : String × List String × String × List String → List String
  | (_, _, _, j) => j

/-- A stream made of a shared header followed by well-formed blocks. -/
def blocksInput (header : List String)
    (blocks : List (String × List String × String × List String)) : List String :=
  header ++ (blocks.map blockLines).flatten

/-- The well-formedness conditions on one block: real MODEL/ENDMDL
delimiters, a nonempty body, and no stray delimiters in body or junk. -/
def GoodBlock (blk : String × List String × String × List String) : Prop :=
  isModelLine (blockModel blk) = true ∧
  isEndmdlLine (blockEnd blk) = true ∧
  blockBody blk ≠ [] ∧
  (∀ l ∈ blockBody blk, isModelLine l = false ∧ isEndmdlLine l = false) ∧
  (∀ l ∈ blockJunk blk, isModelLine l = false ∧ isEndmdlLine l = false)

instance (blk : String × List String × String × List String) :
    Decidable (GoodBlock blk) := by
  unfold GoodBlock
  infer_instance

/-! ## Concrete inputs used by counterexamples and witnesses -/

def sp (n : Nat) : String := ⟨List.replicate n ' '⟩

def coords123 : String := "   1.000   2.000   3.000"

def coords456 : String := "   4.000   5.000   6.000"

/-- A 54-character atom line: the coordinate columns 31-54 are fully
present and in bounds, yet `len(line) < 55` rejects it. -/
def atomShort54 : String := "ATOM" ++ sp 26 ++ coords123

/-- A 54-character HETATM line, same shape. -/
def hetShort54 : String := "HETATM" ++ sp 24 ++ coords456

/-- A well-formed 60-character atom line the sanitizer accepts. -/
def atomOk60 : String := "ATOM" ++ sp 26 ++ coords123 ++ sp 6

/-- A well-formed 55-character HETATM line the sanitizer accepts. -/
def hetOk55 : String := "HETATM" ++ sp 24 ++ coords123 ++ sp 1

/-- A 22-character atom line whose chain-id column holds `c`. -/
def chainLine (c : Char) : String := "ATOM" ++ sp 17 ++ c.toString

/-- A ligand occupying all 26 uppercase chain ids. -/
def allChainsLig : List String := asciiUppercase.map chainLine

/-! # Theorems -/

/-! ## Shared facts about the sanitizer -/

/-- The sanitizer returns the input line itself or nothing. -/
theorem sanitize_cases (l : String) :
    sanitize_coordinates l = some l ∨ sanitize_coordinates l = none := by
  unfold sanitize_coordinates
  split
  · exact Or.inl rfl
  split
  · exact Or.inr rfl
  split
  · split
    · exact Or.inr rfl
    split
    · exact Or.inr rfl
    · exact Or.inl rfl
  · exact Or.inr rfl

/-- A kept line is returned unchanged. -/
theorem sanitize_eq_some {l l' : String} (h : sanitize_coordinates l = some l') :
    l' = l := by
  rcases sanitize_cases l with h' | h' <;> rw [h'] at h
  · exact (Option.some.inj h).symm
  · cases h

/-! ## C4: splitting an input without MODEL markers -/

/-- Processing a non-MODEL line preserves `produced`, `current` and a false
`in_model` flag. -/
theorem splitStep_no_model (st : SplitState) (l : String)
    (hm : isModelLine l = false) (hi : st.inModel = false) :
    (splitStep st l).produced = st.produced ∧ (splitStep st l).inModel = false ∧
      (splitStep st l).current = st.current := by
  have hf : flushPose st = st := by
    unfold flushPose
    rw [if_neg]
    simp [hi]
  unfold splitStep
  rw [hm]
  simp only [Bool.false_eq_true, if_false]
  split
  · rw [hf]
    exact ⟨rfl, rfl, rfl⟩
  split
  · exact ⟨rfl, hi, rfl⟩
  split
  · rw [hi] at *
    simp_all
  · exact ⟨rfl, hi, rfl⟩

/-- Folding the splitter over MODEL-free lines produces no pose. -/
theorem splitRun_no_model (ls : List String) :
    ∀ st : SplitState, st.produced = [] → st.inModel = false → st.current = [] →
      (∀ l ∈ ls, isModelLine l = false) →
      (ls.foldl splitStep st).produced = [] ∧
        (ls.foldl splitStep st).inModel = false ∧
        (ls.foldl splitStep st).current = [] := by
  induction ls with
  | nil => exact fun st h1 h2 h3 _ => ⟨h1, h2, h3⟩
  | cons l t ih =>
    intro st h1 h2 h3 hm
    have hstep := splitStep_no_model st l (hm l (by simp)) h2
    exact ih (splitStep st l) (hstep.1.trans h1) hstep.2.1 (hstep.2.2.trans h3)
      fun x hx => hm x (by simp [hx])

/-- C4 (amended): an input containing no MODEL marker — in particular an
empty or header-only file — yields exactly one pose holding a verbatim copy
of the whole input, numbered 1 (not zero poses: the splitter falls back to
`shutil.copyfile`). -/
theorem C4_no_model_single_pose (lines : List String)
    (h : ∀ l ∈ lines, isModelLine l = false) :
    split_pdbqt_models lines = [(1, lines)] := by
  obtain ⟨hp, hi, _⟩ := splitRun_no_model lines initSplit rfl rfl rfl h
  have hf : flushPose (lines.foldl splitStep initSplit) =
      lines.foldl splitStep initSplit := by
    unfold flushPose
    rw [if_neg]
    simp [hi]
  unfold split_pdbqt_models
  rw [hf, if_pos hp]

/-- C4 witness: a single-REMARK file becomes one pose copying it. -/
theorem C4_witness : split_pdbqt_models ["REMARK r"] = [(1, ["REMARK r"])] :=
  C4_no_model_single_pose ["REMARK r"] (by decide)

/-- C4 counterexample: the claim says an empty input yields zero poses; the
code produces one pose (an empty copy of the file). -/
theorem C4_counterexample :
    split_pdbqt_models [] = [(1, [])] ∧
      ([(1, [])] : List (Nat × List String)) ≠ [] := by
  constructor
  · rfl
  · decide

/-! ## C2: ligand chain assignment -/

/-- A chain the merger chooses is never one of the receptor's. -/
theorem mergeLigChain_not_mem (rc : List Char) (pref c : Char)
    (h : mergeLigChain rc pref = some c) : c ∉ rc := by
  unfold mergeLigChain at h
  split at h
  next hmem =>
    cases h
    exact of_decide_eq_true (List.mem_filter.mp hmem).2
  next =>
    have hc : c ∈ availableChains rc := by
      cases hav : availableChains rc with
      | nil => rw [hav] at h; cases h
      | cons a t =>
        rw [hav, List.head?_cons] at h
        injection h with h2
        subst h2
        exact hav ▸ List.mem_cons_self a t
    exact of_decide_eq_true (List.mem_filter.mp hc).2

/-- The merger's chain choice fails exactly when every uppercase letter is
taken by the receptor. -/
theorem mergeLigChain_none_iff (rc : List Char) (pref : Char) :
    mergeLigChain rc pref = none ↔ ∀ c ∈ asciiUppercase, c ∈ rc := by
  unfold mergeLigChain
  constructor
  · intro h
    split at h
    · cases h
    · intro c hc
      by_contra hcrc
      have hmem : c ∈ availableChains rc :=
        List.mem_filter.mpr ⟨hc, decide_eq_true hcrc⟩
      rw [List.head?_eq_none_iff.mp h] at hmem
      cases hmem
  · intro h
    have hnil : availableChains rc = [] := by
      unfold availableChains
      rw [List.filter_eq_nil_iff]
      intro c hc
      simp [h c hc]
    rw [hnil]
    simp

/-- C2 (amended): the merger's chain choice avoids every receptor chain
when one is free and fails (an uncaught `IndexError`, modelled as `none`)
exactly when all 26 letters are taken; but
`ensure_ligand_chain_and_hetatm` consults only the ligand's own chain
column — a supplied `desired_chain` is used unchecked, and when the ligand
itself uses all 26 letters it silently falls back to `'L'` instead of
failing. -/
theorem C2_chain_assignment :
    (∀ rc pref c, mergeLigChain rc pref = some c → c ∉ rc) ∧
    (∀ rc pref, mergeLigChain rc pref = none ↔ ∀ c ∈ asciiUppercase, c ∈ rc) ∧
    (∀ lines d, ensureChainChoice lines (some d) = d) ∧
    (∀ lines, (∀ c ∈ asciiUppercase, c ∈ chainIds lines) →
      ensureChainChoice lines none = 'L') := by
  refine ⟨mergeLigChain_not_mem, mergeLigChain_none_iff, fun _ _ => rfl, ?_⟩
  intro lines h
  unfold ensureChainChoice
  have hL : 'L' ∈ chainIds lines := h 'L' (by decide)
  rw [if_neg (by simpa using hL)]
  have : (asciiUppercase.find? fun c => decide (c ∉ chainIds lines)) = none := by
    rw [List.find?_eq_none]
    intro c hc
    simp [h c hc]
  rw [this]

/-- C2 witness: with receptor chains `['A']`, the merger's choice `'L'`
avoids the receptor set. -/
theorem C2_witness : 'L' ∉ (['A'] : List Char) :=
  C2_chain_assignment.1 ['A'] 'L' 'L' (by decide)

/-- C2 counterexample: the receptor uses only chain `L` (set size 1 < 26),
yet normalizing a chain-less ligand picks exactly `'L'` — a collision; and
a ligand occupying all 26 letters gets the silent `'L'` fallback instead of
an explicit failure. -/
theorem C2_counterexample :
    chainIds [chainLine 'L'] = ['L'] ∧
      ensureChainChoice [] none = 'L' ∧
      'L' ∈ chainIds [chainLine 'L'] ∧
      ensureChainChoice allChainsLig none = 'L' := by decide

/-! ## C1: what the cleaner drops -/

/-- A list with a given head is the only shape a prefix check can accept. -/
theorem head_of_isPrefixOf {a : Char} {p s : List Char}
    (h : List.isPrefixOf (a :: p) s = true) : ∃ t, s = a :: t := by
  cases s with
  | nil => simp [List.isPrefixOf] at h
  | cons b bs =>
    simp [List.isPrefixOf] at h
    exact ⟨bs, by rw [h.1]⟩

/-- An `ENDMDL` line is not a `MODEL` line (their first characters differ). -/
theorem endmdl_not_model {l : String} (h : isEndmdlLine l = true) :
    isModelLine l = false := by
  unfold isEndmdlLine pyStarts at h
  rw [show "ENDMDL".data = 'E' :: ['N', 'D', 'M', 'D', 'L'] by decide] at h
  obtain ⟨t, ht⟩ := head_of_isPrefixOf h
  unfold isModelLine pyStarts
  rw [ht, show "MODEL".data = 'M' :: ['O', 'D', 'E', 'L'] by decide]
  simp [List.isPrefixOf]

/-- The cleaner's loop, one step at a time. -/
theorem cleanLoop_cons (b : Bool) (l : String) (t : List String) :
    cleanLoop b (l :: t) =
      if isModelLine l = true then cleanLoop true t
      else if isEndmdlLine l = true then cleanLoop false t
      else if b = true then cleanLoop b t
      else if isConectLine l = true then cleanLoop b t
      else
        match sanitize_coordinates l with
        | none => cleanLoop b t
        | some fixed => fixed :: cleanLoop b t := by
  rfl

/-- Step equation: a MODEL line enters a model block. -/
theorem cleanLoop_cons_model {l : String} (b : Bool) (t : List String)
    (hm : isModelLine l = true) : cleanLoop b (l :: t) = cleanLoop true t := by
  rw [cleanLoop_cons, if_pos hm]

/-- Step equation: an ENDMDL line leaves a model block. -/
theorem cleanLoop_cons_endmdl {l : String} (b : Bool) (t : List String)
    (hm : isModelLine l = false) (he : isEndmdlLine l = true) :
    cleanLoop b (l :: t) = cleanLoop false t := by
  rw [cleanLoop_cons, if_neg (by simp [hm]), if_pos he]

/-- Step equation: inside a model block every other line is dropped. -/
theorem cleanLoop_cons_inmodel {l : String} (t : List String)
    (hm : isModelLine l = false) (he : isEndmdlLine l = false) :
    cleanLoop true (l :: t) = cleanLoop true t := by
  rw [cleanLoop_cons, if_neg (by simp [hm]), if_neg (by simp [he]), if_pos rfl]

/-- Step equation: a top-level CONECT line is dropped. -/
theorem cleanLoop_cons_conect {l : String} (t : List String)
    (hm : isModelLine l = false) (he : isEndmdlLine l = false)
    (hc : isConectLine l = true) :
    cleanLoop false (l :: t) = cleanLoop false t := by
  rw [cleanLoop_cons, if_neg (by simp [hm]), if_neg (by simp [he]),
    if_neg (by simp), if_pos hc]

/-- Step equation: a top-level non-CONECT line goes through the sanitizer. -/
theorem cleanLoop_cons_sanitize {l : String} (t : List String)
    (hm : isModelLine l = false) (he : isEndmdlLine l = false)
    (hc : isConectLine l = false) :
    cleanLoop false (l :: t) =
      match sanitize_coordinates l with
      | none => cleanLoop false t
      | some fixed => fixed :: cleanLoop false t := by
  rw [cleanLoop_cons, if_neg (by simp [hm]), if_neg (by simp [he]),
    if_neg (by simp), if_neg (by simp [hc])]

/-- Outside a model block, MODEL-free prefixes process independently. -/
theorem cleanLoop_append_no_model (pre rest : List String)
    (h : ∀ l ∈ pre, isModelLine l = false) :
    cleanLoop false (pre ++ rest) = cleanLoop false pre ++ cleanLoop false rest := by
  induction pre with
  | nil => simp [cleanLoop]
  | cons l t ih =>
    have hl : isModelLine l = false := h l (by simp)
    have ht : ∀ x ∈ t, isModelLine x = false := fun x hx => h x (by simp [hx])
    rw [List.cons_append]
    by_cases he : isEndmdlLine l = true
    · rw [cleanLoop_cons_endmdl false _ hl he, cleanLoop_cons_endmdl false t hl he]
      exact ih ht
    · have he' : isEndmdlLine l = false := by simpa using he
      by_cases hc : isConectLine l = true
      · rw [cleanLoop_cons_conect _ hl he' hc, cleanLoop_cons_conect t hl he' hc]
        exact ih ht
      · have hc' : isConectLine l = false := by simpa using hc
        rw [cleanLoop_cons_sanitize _ hl he' hc', cleanLoop_cons_sanitize t hl he' hc']
        rcases hs : sanitize_coordinates l with _ | l'
        · exact ih ht
        · rw [ih ht]
          rfl

/-- Every line inside a model block is dropped until an `ENDMDL`. -/
theorem cleanLoop_true_drops (body rest : List String)
    (h : ∀ l ∈ body, isEndmdlLine l = false) :
    cleanLoop true (body ++ rest) = cleanLoop true rest := by
  induction body with
  | nil => simp
  | cons l t ih =>
    have hl : isEndmdlLine l = false := h l (by simp)
    have ht : ∀ x ∈ t, isEndmdlLine x = false := fun x hx => h x (by simp [hx])
    rw [List.cons_append]
    by_cases hm : isModelLine l = true
    · rw [cleanLoop_cons_model true _ hm]
      exact ih ht
    · rw [cleanLoop_cons_inmodel _ (by simpa using hm) hl]
      exact ih ht

/-- Marker-free input reduces the cleaner to a per-line filter. -/
theorem cleanLoop_no_markers (lines : List String)
    (h : ∀ l ∈ lines, isModelLine l = false ∧ isEndmdlLine l = false) :
    cleanLoop false lines =
      lines.filter fun l => !isConectLine l && (sanitize_coordinates l).isSome := by
  induction lines with
  | nil => rfl
  | cons l t ih =>
    obtain ⟨hm, he⟩ := h l (by simp)
    have ht : ∀ x ∈ t, isModelLine x = false ∧ isEndmdlLine x = false :=
      fun x hx => h x (by simp [hx])
    by_cases hc : isConectLine l = true
    · rw [cleanLoop_cons_conect _ hm he hc, List.filter_cons, ih ht]
      simp [hc]
    · have hc' : isConectLine l = false := by simpa using hc
      rw [cleanLoop_cons_sanitize _ hm he hc']
      rcases hs : sanitize_coordinates l with _ | l'
      · rw [List.filter_cons, ih ht]
        simp [hc', hs]
      · rw [List.filter_cons, ih ht, sanitize_eq_some hs]
        simp [hc', hs]

/-- C1 (amended): the cleaner drops the MODEL and ENDMDL delimiter lines
*and every line they wrap* (the whole section is removed, matching the
docstring "Drop MODEL/ENDMDL sections"); lines outside any section are
kept unless they are CONECT lines or atom lines rejected by the
sanitizer. -/
theorem C1_clean_drops_model_sections :
    (∀ (pre : List String) (m : String) (body : List String) (e : String)
        (post : List String),
      isModelLine m = true → isEndmdlLine e = true →
      (∀ l ∈ pre, isModelLine l = false) →
      (∀ l ∈ body, isEndmdlLine l = false) →
      cleanLoop false (pre ++ m :: (body ++ e :: post)) =
        cleanLoop false (pre ++ post)) ∧
    (∀ lines, (∀ l ∈ lines, isModelLine l = false ∧ isEndmdlLine l = false) →
      cleanLoop false lines =
        lines.filter fun l => !isConectLine l && (sanitize_coordinates l).isSome) := by
  constructor
  · intro pre m body e post hm he hpre hbody
    rw [cleanLoop_append_no_model pre _ hpre, cleanLoop_append_no_model pre post hpre]
    congr 1
    rw [cleanLoop_cons_model false _ hm, cleanLoop_true_drops body _ hbody,
      cleanLoop_cons_endmdl true post (endmdl_not_model he) he]
  · exact cleanLoop_no_markers

/-- C1 witness: a MODEL section after one atom line is removed whole. -/
theorem C1_witness :
    cleanLoop false ([atomOk60] ++ "MODEL 1" :: (["REMARK wrapped"] ++ "ENDMDL" :: [])) =
      cleanLoop false ([atomOk60] ++ []) :=
  C1_clean_drops_model_sections.1 [atomOk60] "MODEL 1" ["REMARK wrapped"] "ENDMDL" []
    (by decide) (by decide) (by decide) (by decide)

/-- C1 counterexample: the claim keeps wrapped lines at top level, but the
cleaner's output on this input does not contain the wrapped `REMARK`. -/
theorem C1_counterexample :
    minimal_clean_pdb [atomOk60, "MODEL 1", "REMARK wrapped", "ENDMDL"] =
      Except.ok [atomOk60, "END"] ∧
    "REMARK wrapped" ∉ [atomOk60, "END"] := by
  exact ⟨by rfl, by decide⟩

/-! ## C8: fatal failure exactly on zero surviving atoms -/

theorem stripChars_cons_ne_nil {c : Char} {cs : List Char} (h : pyWS c = false) :
    stripChars (c :: cs) ≠ [] := by
  unfold stripChars
  rw [List.dropWhile_cons, h]
  simp only [Bool.false_eq_true, if_false]
  intro hnil
  have : List.dropWhile pyWS ((c :: cs).reverse) = [] := by
    have := congrArg List.reverse hnil
    rwa [List.reverse_reverse] at this
  have hmem : c ∈ (c :: cs).reverse := by simp
  have := List.dropWhile_eq_nil_iff.mp this c hmem
  rw [h] at this
  cases this

/-- An atom line starts with a non-whitespace character. -/
theorem atom_head {l : String} (h : isAtomLine l = true) :
    ∃ c t, l.data = c :: t ∧ pyWS c = false := by
  unfold isAtomLine pyStarts at h
  rcases Bool.or_eq_true_iff.mp h with h' | h'
  · rw [show "ATOM".data = 'A' :: ['T', 'O', 'M'] by decide] at h'
    obtain ⟨t, ht⟩ := head_of_isPrefixOf h'
    exact ⟨'A', t, ht, by decide⟩
  · rw [show "HETATM".data = 'H' :: ['E', 'T', 'A', 'T', 'M'] by decide] at h'
    obtain ⟨t, ht⟩ := head_of_isPrefixOf h'
    exact ⟨'H', t, ht, by decide⟩

/-- An atom line is never blank. -/
theorem atom_not_blank {l : String} (h : isAtomLine l = true) :
    isBlankLine l = false := by
  obtain ⟨c, t, hdata, hws⟩ := atom_head h
  apply decide_eq_false
  intro heq
  have hq : stripChars l.data = [] := congrArg String.data heq
  rw [hdata] at hq
  exact stripChars_cons_ne_nil hws hq

/-- The trailing-blank pop splits the list into a kept part and an
all-blank tail. -/
theorem dropTrailingBlank_decomp (ls : List String) :
    ∃ t, ls = dropTrailingBlank ls ++ t ∧ ∀ l ∈ t, isBlankLine l = true := by
  refine ⟨(ls.reverse.takeWhile isBlankLine).reverse, ?_, ?_⟩
  · calc ls = ls.reverse.reverse := (List.reverse_reverse ls).symm
    _ = (ls.reverse.takeWhile isBlankLine ++ ls.reverse.dropWhile isBlankLine).reverse := by
        rw [List.takeWhile_append_dropWhile]
    _ = dropTrailingBlank ls ++ (ls.reverse.takeWhile isBlankLine).reverse := by
        rw [List.reverse_append]; rfl
  · intro l hl
    exact List.mem_takeWhile_imp (List.mem_reverse.mp hl)

/-- Popping trailing blanks cannot change whether an atom line exists. -/
theorem any_atom_dropTrailingBlank (ls : List String) :
    (dropTrailingBlank ls).any isAtomLine = ls.any isAtomLine := by
  obtain ⟨t, hdecomp, ht⟩ := dropTrailingBlank_decomp ls
  conv_rhs => rw [hdecomp]
  rw [List.any_append]
  have hf : t.any isAtomLine = false := by
    rw [List.any_eq_false]
    intro x hx hax
    have hb := ht x hx
    rw [atom_not_blank hax] at hb
    cases hb
  rw [hf, Bool.or_false]

/-- C8 (confirmed): the cleaner fails exactly when no atom record survives
sanitization (the `RuntimeError` is raised before the output file is
opened, so nothing is written then); otherwise it returns the cleaned
lines. -/
theorem C8_clean_failure_iff (lines : List String) :
    ((∃ msg, minimal_clean_pdb lines = Except.error msg) ↔
      ∀ l ∈ cleanLoop false lines, isAtomLine l = false) ∧
    ((∃ out, minimal_clean_pdb lines = Except.ok out) ↔
      ¬ ∀ l ∈ cleanLoop false lines, isAtomLine l = false) := by
  have hany : (cleanedLines lines).any isAtomLine =
      (cleanLoop false lines).any isAtomLine :=
    any_atom_dropTrailingBlank (cleanLoop false lines)
  unfold minimal_clean_pdb
  rw [hany]
  by_cases hc : (cleanLoop false lines).any isAtomLine = true
  · rw [if_pos hc]
    obtain ⟨l, hl, hatom⟩ := List.any_eq_true.mp hc
    constructor
    · constructor
      · rintro ⟨msg, hmsg⟩; cases hmsg
      · intro hall
        rw [hall l hl] at hatom
        cases hatom
    · constructor
      · intro _ hall
        rw [hall l hl] at hatom
        cases hatom
      · intro _
        exact ⟨_, rfl⟩
  · rw [if_neg hc]
    have hall : ∀ l ∈ cleanLoop false lines, isAtomLine l = false := by
      intro l hl
      by_contra hne
      exact hc (List.any_eq_true.mpr ⟨l, hl, by simpa using hne⟩)
    constructor
    · exact ⟨fun _ => hall, fun _ => ⟨_, rfl⟩⟩
    · constructor
      · rintro ⟨out, hout⟩; cases hout
      · intro hn; exact absurd hall hn

/-! ## C9: renumber density (spec-modelled) -/

/-- New serials, in order, starting at `k + 1`. -/
theorem serials_enumFrom (l : List String) :
    ∀ k, ((l.enumFrom k).map fun p => p.1 + 1) = List.range' (k + 1) l.length := by
  induction l with
  | nil => intro k; rfl
  | cons a t ih =>
    intro k
    rw [List.enumFrom_cons]
    simp only [List.map_cons, List.length_cons]
    rw [ih (k + 1), List.range'_succ]

/-- C9 (confirmed, spec-modelled): the renumbered output serials are
exactly `1..K` in order, where `K` is the number of atom records surviving
sanitization — no gaps, no duplicates. -/
theorem C9_renumber_density (lines : List String) :
    outputSerials lines = List.range' 1 (survivingAtoms lines).length ∧
    (outputSerials lines).Nodup ∧
    ∀ n, n ∈ outputSerials lines ↔ 1 ≤ n ∧ n ≤ (survivingAtoms lines).length := by
  have h1 : outputSerials lines = List.range' 1 (survivingAtoms lines).length := by
    unfold outputSerials renumberPass
    rw [List.map_map, List.enum_eq_enumFrom]
    exact serials_enumFrom (survivingAtoms lines) 0
  refine ⟨h1, ?_, ?_⟩
  · rw [h1]
    apply List.nodup_range'
    omega
  · intro n
    rw [h1]
    constructor
    · intro hn
      obtain ⟨i, hi, rfl⟩ := List.mem_range'.mp hn
      omega
    · intro hn
      exact List.mem_range'.mpr ⟨n - 1, by omega, by omega⟩

/-! ## C10: the cleaner only deletes whole lines -/

/-- The cleaner's loop output is a subsequence of its input. -/
theorem cleanLoop_sublist : ∀ (b : Bool) (lines : List String),
    (cleanLoop b lines).Sublist lines := by
  intro b lines
  induction lines generalizing b with
  | nil => simp [cleanLoop]
  | cons l t ih =>
    unfold cleanLoop
    split
    · exact (ih true).trans (List.sublist_cons_self l t)
    split
    · exact (ih false).trans (List.sublist_cons_self l t)
    split
    · exact (ih b).trans (List.sublist_cons_self l t)
    split
    · exact (ih b).trans (List.sublist_cons_self l t)
    · split
      · exact (ih b).trans (List.sublist_cons_self l t)
      next l' hs =>
        rw [sanitize_eq_some hs]
        exact (ih b).cons₂ l

theorem dropTrailingBlank_sublist (ls : List String) :
    (dropTrailingBlank ls).Sublist ls := by
  have h := (List.dropWhile_sublist (p := isBlankLine) (l := ls.reverse)).reverse
  rwa [List.reverse_reverse] at h

/-- C10 (confirmed): every line of the cleaner's output except possibly a
single appended final `END` is byte-identical to some input line, and the
retained lines keep their relative order — the output is a subsequence of
the input plus the optional terminator. -/
theorem C10_clean_line_subsequence (lines out : List String)
    (h : minimal_clean_pdb lines = Except.ok out) :
    ∃ kept, kept.Sublist lines ∧ (out = kept ∨ out = kept ++ ["END"]) := by
  have hsub : (dropTrailingBlank (cleanLoop false lines)).Sublist lines :=
    (dropTrailingBlank_sublist _).trans (cleanLoop_sublist false lines)
  unfold minimal_clean_pdb at h
  split at h
  · refine ⟨dropTrailingBlank (cleanLoop false lines), hsub, ?_⟩
    have hx := Except.ok.inj h
    split at hx
    · exact Or.inl hx.symm
    · exact Or.inr hx.symm
  · cases h

/-! ## C5 and C6: the coordinate sanitizer -/

/-- The integer bound test agrees with the real-valued bound
`500 < |m * 10 ^ e|`. -/
theorem absGt500_iff (m e : Int) :
    absGt500 (PyFloat.num m e) = true ↔ 500 < |pyVal m e| := by
  unfold pyVal
  rw [show absGt500 (PyFloat.num m e) =
      (if 0 ≤ e then decide ((500 : Nat) < m.natAbs * 10 ^ e.toNat)
       else decide ((500 : Nat) * 10 ^ (-e).toNat < m.natAbs)) from rfl]
  by_cases he : 0 ≤ e
  · rw [if_pos he]
    obtain ⟨n, rfl⟩ : ∃ n : ℕ, e = (n : ℤ) := ⟨e.toNat, (Int.toNat_of_nonneg he).symm⟩
    have h10 : (0:ℚ) < 10 ^ n := pow_pos (by norm_num) n
    have key : |(m : ℚ) * (10:ℚ) ^ ((n : ℤ))| = ((m.natAbs * 10 ^ n : ℕ) : ℚ) := by
      rw [zpow_natCast, abs_mul, abs_of_pos h10]
      push_cast [Int.cast_natAbs]
      ring
    rw [key, decide_eq_true_eq, Int.toNat_natCast]
    constructor <;> intro hlt <;> exact_mod_cast hlt
  · rw [if_neg he, decide_eq_true_eq]
    push_neg at he
    obtain ⟨n, hn, rfl⟩ : ∃ n : ℕ, 0 < n ∧ e = -(n : ℤ) :=
      ⟨(-e).toNat, by omega, by omega⟩
    have h10 : (0:ℚ) < 10 ^ n := pow_pos (by norm_num) n
    have key : |(m : ℚ) * (10:ℚ) ^ (-(n : ℤ))| = (m.natAbs : ℚ) / 10 ^ n := by
      rw [zpow_neg, zpow_natCast, abs_mul, abs_inv, abs_of_pos h10, div_eq_mul_inv]
      push_cast [Int.cast_natAbs]
      ring
    rw [key, lt_div_iff₀ h10, show (-(-(n : ℤ))).toNat = n by omega]
    constructor <;> intro hlt <;> exact_mod_cast hlt

theorem finiteVal_eq_none {v : PyFloat} (h : nonFinite v = true) :
    finiteVal v = none := by
  cases v with
  | num m e => cases h
  | inf => rfl
  | nan => rfl

theorem nonFinite_false_num {v : PyFloat} (h : nonFinite v = false) :
    ∃ m e : Int, v = PyFloat.num m e := by
  cases v with
  | num m e => exact ⟨m, e, rfl⟩
  | inf => cases h
  | nan => cases h

theorem finiteParse_some {f : String} {m e : Int}
    (h : finiteParse f = some (m, e)) : pyFloat f = some (PyFloat.num m e) := by
  unfold finiteParse at h
  rcases hp : pyFloat f with _ | v <;> rw [hp] at h
  · cases h
  · cases v with
    | num m' e' =>
      simp only [Option.some_bind, finiteVal, Option.some.injEq, Prod.mk.injEq] at h
      rw [h.1, h.2]
    | inf => cases h
    | nan => cases h

/-- On an atom line the sanitizer reduces to the length, parse and bound
checks. -/
theorem sanitize_atom (line : String) (h : isAtomLine line = true) :
    sanitize_coordinates line =
      if strLen line < 55 then none
      else
        match pyFloat (pySlice line 30 38), pyFloat (pySlice line 38 46),
            pyFloat (pySlice line 46 54) with
        | some x, some y, some z =>
          if nonFinite x || nonFinite y || nonFinite z then none
          else if absGt500 x || absGt500 y || absGt500 z then none
          else some line
        | _, _, _ => none := by
  have hb : (pyStarts line "ATOM" || pyStarts line "HETATM") = true := h
  unfold sanitize_coordinates
  rw [hb]
  simp

/-- C5 (amended): an atom line is rejected exactly when it is shorter than
55 characters (one more than the 54 columns needed to contain the three
coordinate fields — the code tests `len(line) < 55`), or some coordinate
field fails to parse as a finite float (NaN and infinity rejected), or some
coordinate exceeds 500.0 in absolute value; and every retained atom line
has three finite coordinates with absolute value at most 500.0. -/
theorem C5_sanitize_rejection (line : String) (h : isAtomLine line = true) :
    (sanitize_coordinates line = none ↔
      strLen line < 55 ∨
      (∃ f ∈ coordFields line, finiteParse f = none) ∨
      (∃ f ∈ coordFields line, ∃ m e : Int,
        finiteParse f = some (m, e) ∧ 500 < |pyVal m e|)) ∧
    (∀ out, sanitize_coordinates line = some out →
      ∀ f ∈ coordFields line, ∃ m e : Int,
        finiteParse f = some (m, e) ∧ |pyVal m e| ≤ 500) := by
  have hfields : coordFields line =
      [pySlice line 30 38, pySlice line 38 46, pySlice line 46 54] := rfl
  by_cases hlen : strLen line < 55
  · have hsan : sanitize_coordinates line = none := by
      rw [sanitize_atom line h, if_pos hlen]
    rw [hsan]
    exact ⟨by simp [hlen], fun out hout => Option.noConfusion hout⟩
  · rcases h1 : pyFloat (pySlice line 30 38) with _ | x <;>
      rcases h2 : pyFloat (pySlice line 38 46) with _ | y <;>
        rcases h3 : pyFloat (pySlice line 46 54) with _ | z
    · have hsan : sanitize_coordinates line = none := by
        rw [sanitize_atom line h, if_neg hlen]; simp [h1, h2, h3]
      rw [hsan]
      refine ⟨⟨fun _ => Or.inr (Or.inl ⟨pySlice line 30 38, ?_, ?_⟩), fun _ => rfl⟩,
        fun out hout => Option.noConfusion hout⟩
      · rw [hfields]; simp
      · simp [finiteParse, h1]
    · have hsan : sanitize_coordinates line = none := by
        rw [sanitize_atom line h, if_neg hlen]; simp [h1, h2, h3]
      rw [hsan]
      refine ⟨⟨fun _ => Or.inr (Or.inl ⟨pySlice line 30 38, ?_, ?_⟩), fun _ => rfl⟩,
        fun out hout => Option.noConfusion hout⟩
      · rw [hfields]; simp
      · simp [finiteParse, h1]
    · have hsan : sanitize_coordinates line = none := by
        rw [sanitize_atom line h, if_neg hlen]; simp [h1, h2, h3]
      rw [hsan]
      refine ⟨⟨fun _ => Or.inr (Or.inl ⟨pySlice line 30 38, ?_, ?_⟩), fun _ => rfl⟩,
        fun out hout => Option.noConfusion hout⟩
      · rw [hfields]; simp
      · simp [finiteParse, h1]
    · have hsan : sanitize_coordinates line = none := by
        rw [sanitize_atom line h, if_neg hlen]; simp [h1, h2, h3]
      rw [hsan]
      refine ⟨⟨fun _ => Or.inr (Or.inl ⟨pySlice line 30 38, ?_, ?_⟩), fun _ => rfl⟩,
        fun out hout => Option.noConfusion hout⟩
      · rw [hfields]; simp
      · simp [finiteParse, h1]
    · have hsan : sanitize_coordinates line = none := by
        rw [sanitize_atom line h, if_neg hlen]; simp [h1, h2, h3]
      rw [hsan]
      refine ⟨⟨fun _ => Or.inr (Or.inl ⟨pySlice line 38 46, ?_, ?_⟩), fun _ => rfl⟩,
        fun out hout => Option.noConfusion hout⟩
      · rw [hfields]; simp
      · simp [finiteParse, h2]
    · have hsan : sanitize_coordinates line = none := by
        rw [sanitize_atom line h, if_neg hlen]; simp [h1, h2, h3]
      rw [hsan]
      refine ⟨⟨fun _ => Or.inr (Or.inl ⟨pySlice line 38 46, ?_, ?_⟩), fun _ => rfl⟩,
        fun out hout => Option.noConfusion hout⟩
      · rw [hfields]; simp
      · simp [finiteParse, h2]
    · have hsan : sanitize_coordinates line = none := by
        rw [sanitize_atom line h, if_neg hlen]; simp [h1, h2, h3]
      rw [hsan]
      refine ⟨⟨fun _ => Or.inr (Or.inl ⟨pySlice line 46 54, ?_, ?_⟩), fun _ => rfl⟩,
        fun out hout => Option.noConfusion hout⟩
      · rw [hfields]; simp
      · simp [finiteParse, h3]
    · by_cases hnf : (nonFinite x || nonFinite y || nonFinite z) = true
      · have hsan : sanitize_coordinates line = none := by
          rw [sanitize_atom line h, if_neg hlen]
          simp [h1, h2, h3, hnf]
        rw [hsan]
        refine ⟨⟨fun _ => Or.inr (Or.inl ?_), fun _ => rfl⟩,
          fun out hout => Option.noConfusion hout⟩
        rcases Bool.or_eq_true_iff.mp hnf with hxy | hz'
        · rcases Bool.or_eq_true_iff.mp hxy with hx' | hy'
          · exact ⟨pySlice line 30 38, by rw [hfields]; simp,
              by simp [finiteParse, h1, finiteVal_eq_none hx']⟩
          · exact ⟨pySlice line 38 46, by rw [hfields]; simp,
              by simp [finiteParse, h2, finiteVal_eq_none hy']⟩
        · exact ⟨pySlice line 46 54, by rw [hfields]; simp,
            by simp [finiteParse, h3, finiteVal_eq_none hz']⟩
      · have hnf' : (nonFinite x || nonFinite y || nonFinite z) = false :=
          Bool.eq_false_iff.mpr hnf
        have hnfs := Bool.or_eq_false_iff.mp hnf'
        have hnfs2 := Bool.or_eq_false_iff.mp hnfs.1
        obtain ⟨mx, ex, rfl⟩ := nonFinite_false_num hnfs2.1
        obtain ⟨my, ey, rfl⟩ := nonFinite_false_num hnfs2.2
        obtain ⟨mz, ez, rfl⟩ := nonFinite_false_num hnfs.2
        have hsan0 : sanitize_coordinates line =
            (if absGt500 (PyFloat.num mx ex) || absGt500 (PyFloat.num my ey) ||
                absGt500 (PyFloat.num mz ez) then none else some line) := by
          rw [sanitize_atom line h, if_neg hlen]
          simp [h1, h2, h3, nonFinite]
        by_cases hab : (absGt500 (PyFloat.num mx ex) || absGt500 (PyFloat.num my ey) ||
            absGt500 (PyFloat.num mz ez)) = true
        · have hsan : sanitize_coordinates line = none := by rw [hsan0, if_pos hab]
          rw [hsan]
          refine ⟨⟨fun _ => Or.inr (Or.inr ?_), fun _ => rfl⟩,
            fun out hout => Option.noConfusion hout⟩
          rcases Bool.or_eq_true_iff.mp hab with hxy | hz'
          · rcases Bool.or_eq_true_iff.mp hxy with hx' | hy'
            · exact ⟨pySlice line 30 38, by rw [hfields]; simp, mx, ex,
                by simp [finiteParse, h1, finiteVal], (absGt500_iff mx ex).mp hx'⟩
            · exact ⟨pySlice line 38 46, by rw [hfields]; simp, my, ey,
                by simp [finiteParse, h2, finiteVal], (absGt500_iff my ey).mp hy'⟩
          · exact ⟨pySlice line 46 54, by rw [hfields]; simp, mz, ez,
              by simp [finiteParse, h3, finiteVal], (absGt500_iff mz ez).mp hz'⟩
        · have habs := Bool.or_eq_false_iff.mp (Bool.eq_false_iff.mpr hab)
          have habs2 := Bool.or_eq_false_iff.mp habs.1
          have hbx := habs2.1
          have hby := habs2.2
          have hbz := habs.2
          have hlex : |pyVal mx ex| ≤ 500 :=
            le_of_not_lt fun hb => by rw [(absGt500_iff mx ex).mpr hb] at hbx; cases hbx
          have hley : |pyVal my ey| ≤ 500 :=
            le_of_not_lt fun hb => by rw [(absGt500_iff my ey).mpr hb] at hby; cases hby
          have hlez : |pyVal mz ez| ≤ 500 :=
            le_of_not_lt fun hb => by rw [(absGt500_iff mz ez).mpr hb] at hbz; cases hbz
          have hsan : sanitize_coordinates line = some line := by
            rw [hsan0, if_neg (by simp [hbx, hby, hbz])]
          rw [hsan]
          constructor
          · constructor
            · intro hnone; exact Option.noConfusion hnone
            · intro hrhs
              exfalso
              rcases hrhs with hlen' | ⟨f, hf, hparse⟩ | ⟨f, hf, m, e, hparse, hbound⟩
              · exact hlen hlen'
              · rw [hfields] at hf
                simp only [List.mem_cons, List.not_mem_nil, or_false] at hf
                rcases hf with rfl | rfl | rfl
                · simp [finiteParse, h1, finiteVal] at hparse
                · simp [finiteParse, h2, finiteVal] at hparse
                · simp [finiteParse, h3, finiteVal] at hparse
              · rw [hfields] at hf
                simp only [List.mem_cons, List.not_mem_nil, or_false] at hf
                rcases hf with rfl | rfl | rfl
                · simp only [finiteParse, h1, Option.some_bind, finiteVal,
                    Option.some.injEq, Prod.mk.injEq] at hparse
                  rw [← hparse.1, ← hparse.2] at hbound
                  exact absurd hbound (not_lt.mpr hlex)
                · simp only [finiteParse, h2, Option.some_bind, finiteVal,
                    Option.some.injEq, Prod.mk.injEq] at hparse
                  rw [← hparse.1, ← hparse.2] at hbound
                  exact absurd hbound (not_lt.mpr hley)
                · simp only [finiteParse, h3, Option.some_bind, finiteVal,
                    Option.some.injEq, Prod.mk.injEq] at hparse
                  rw [← hparse.1, ← hparse.2] at hbound
                  exact absurd hbound (not_lt.mpr hlez)
          · intro out _ f hf
            rw [hfields] at hf
            simp only [List.mem_cons, List.not_mem_nil, or_false] at hf
            rcases hf with rfl | rfl | rfl
            · exact ⟨mx, ex, by simp [finiteParse, h1, finiteVal], hlex⟩
            · exact ⟨my, ey, by simp [finiteParse, h2, finiteVal], hley⟩
            · exact ⟨mz, ez, by simp [finiteParse, h3, finiteVal], hlez⟩

/-- C6 (amended): the sanitizer is total and deterministic — for every
input string it returns either the line itself (unchanged) or `none` — and
for every atom line of length at least 55 whose three coordinate fields
parse as finite floats within the 500.0 bound it returns the line (atom
lines shorter than 55 characters are rejected regardless of content). -/
theorem C6_sanitize_total :
    (∀ s, sanitize_coordinates s = some s ∨ sanitize_coordinates s = none) ∧
    (∀ s, isAtomLine s = true → 55 ≤ strLen s →
      (∀ f ∈ coordFields s, ∃ m e : Int,
        finiteParse f = some (m, e) ∧ |pyVal m e| ≤ 500) →
      sanitize_coordinates s = some s) := by
  refine ⟨sanitize_cases, ?_⟩
  intro s hatom hlen hf
  have hfields : coordFields s =
      [pySlice s 30 38, pySlice s 38 46, pySlice s 46 54] := rfl
  obtain ⟨m1, e1, hp1, hb1⟩ := hf (pySlice s 30 38) (by rw [hfields]; simp)
  obtain ⟨m2, e2, hp2, hb2⟩ := hf (pySlice s 38 46) (by rw [hfields]; simp)
  obtain ⟨m3, e3, hp3, hb3⟩ := hf (pySlice s 46 54) (by rw [hfields]; simp)
  have hg1 : absGt500 (PyFloat.num m1 e1) = false :=
    Bool.eq_false_iff.mpr fun hb =>
      absurd ((absGt500_iff m1 e1).mp hb) (not_lt.mpr hb1)
  have hg2 : absGt500 (PyFloat.num m2 e2) = false :=
    Bool.eq_false_iff.mpr fun hb =>
      absurd ((absGt500_iff m2 e2).mp hb) (not_lt.mpr hb2)
  have hg3 : absGt500 (PyFloat.num m3 e3) = false :=
    Bool.eq_false_iff.mpr fun hb =>
      absurd ((absGt500_iff m3 e3).mp hb) (not_lt.mpr hb3)
  rw [sanitize_atom s hatom, if_neg (by omega)]
  simp [finiteParse_some hp1, finiteParse_some hp2, finiteParse_some hp3,
    nonFinite, hg1, hg2, hg3]

/-- C6 witness: a well-formed in-bounds atom line passes unchanged. -/
theorem C6_witness : sanitize_coordinates atomOk60 = some atomOk60 :=
  C6_sanitize_total.2 atomOk60 (by decide) (by decide)
    (by
      intro f hf
      rw [(by decide :
        coordFields atomOk60 = ["   1.000", "   2.000", "   3.000"])] at hf
      simp only [List.mem_cons, List.not_mem_nil, or_false] at hf
      rcases hf with rfl | rfl | rfl
      · exact ⟨1000, -3, by decide, by norm_num [pyVal]⟩
      · exact ⟨2000, -3, by decide, by norm_num [pyVal]⟩
      · exact ⟨3000, -3, by decide, by norm_num [pyVal]⟩)

/-- C6 counterexample: a 54-character HETATM line whose three coordinate
fields are all finite and within the bound is rejected anyway — the claim
promises all-finite in-bounds atom lines always pass. -/
theorem C6_counterexample :
    isAtomLine hetShort54 = true ∧
      coordFields hetShort54 = ["   4.000", "   5.000", "   6.000"] ∧
      finiteParse "   4.000" = some (4000, -3) ∧
      finiteParse "   5.000" = some (5000, -3) ∧
      finiteParse "   6.000" = some (6000, -3) ∧
      |pyVal 4000 (-3)| ≤ 500 ∧ |pyVal 5000 (-3)| ≤ 500 ∧
      |pyVal 6000 (-3)| ≤ 500 ∧
      sanitize_coordinates hetShort54 = none := by
  refine ⟨by decide, by decide, by decide, by decide, by decide, ?_, ?_, ?_,
    by decide⟩ <;> norm_num [pyVal]

/-- C5 counterexample: a 54-character atom line fully contains the three
coordinate columns 31-54 with finite in-bounds values, yet is rejected —
the code's threshold is 55 characters, not the claim's minimum width 54. -/
theorem C5_counterexample :
    strLen atomShort54 = 54 ∧
      ¬ strLen atomShort54 < 54 ∧
      coordFields atomShort54 = ["   1.000", "   2.000", "   3.000"] ∧
      finiteParse "   1.000" = some (1000, -3) ∧
      finiteParse "   2.000" = some (2000, -3) ∧
      finiteParse "   3.000" = some (3000, -3) ∧
      |pyVal 1000 (-3)| ≤ 500 ∧ |pyVal 2000 (-3)| ≤ 500 ∧
      |pyVal 3000 (-3)| ≤ 500 ∧
      sanitize_coordinates atomShort54 = none := by
  refine ⟨by decide, by decide, by decide, by decide, by decide, by decide,
    ?_, ?_, ?_, by decide⟩ <;> norm_num [pyVal]

/-- C5 witness: the rejection characterization applied to a short line. -/
theorem C5_witness : sanitize_coordinates hetShort54 = none :=
  (C5_sanitize_rejection hetShort54 (by decide)).1.mpr (Or.inl (by decide))


/-- C10 witness: cleaning a one-atom file appends only the terminator. -/
theorem C10_witness :
    ∃ kept, kept.Sublist [hetOk55] ∧
      (([hetOk55, "END"] : List String) = kept ∨
        ([hetOk55, "END"] : List String) = kept ++ ["END"]) :=
  C10_clean_line_subsequence [hetOk55] [hetOk55, "END"] (by rfl)

/-! ## C3: splitting a well-formed multi-model stream -/

/-- The final flush does nothing outside a model block. -/
theorem flushPose_id (st : SplitState) (hi : st.inModel = false) :
    flushPose st = st := by
  unfold flushPose
  rw [if_neg]
  simp [hi]

/-- Folding the splitter over header lines (no delimiters, nothing seen
yet) only extends the shared header. -/
theorem splitRun_header (ls : List String) :
    ∀ st : SplitState, st.sawModel = false →
      (∀ l ∈ ls, isModelLine l = false ∧ isEndmdlLine l = false) →
      ls.foldl splitStep st = { st with header := st.header ++ ls } := by
  induction ls with
  | nil => intro st _ _; simp
  | cons l t ih =>
    intro st hs hml
    obtain ⟨hm, he⟩ := hml l (by simp)
    have hstep : splitStep st l = { st with header := st.header ++ [l] } := by
      unfold splitStep
      rw [hm, he]
      simp [hs]
    rw [List.foldl_cons, hstep,
      ih _ (by simp [hs]) (fun x hx => hml x (by simp [hx]))]
    simp

/-- Folding the splitter over body lines inside a model appends them to
`current`. -/
theorem splitRun_body (ls : List String) :
    ∀ st : SplitState, st.inModel = true → st.sawModel = true →
      (∀ l ∈ ls, isModelLine l = false ∧ isEndmdlLine l = false) →
      ls.foldl splitStep st = { st with current := st.current ++ ls } := by
  induction ls with
  | nil => intro st _ _ _; simp
  | cons l t ih =>
    intro st hi hs hml
    obtain ⟨hm, he⟩ := hml l (by simp)
    have hstep : splitStep st l = { st with current := st.current ++ [l] } := by
      unfold splitStep
      rw [hm, he]
      simp [hs, hi]
    rw [List.foldl_cons, hstep,
      ih _ (by simp [hi]) (by simp [hs]) (fun x hx => hml x (by simp [hx]))]
    simp

/-- Folding the splitter over stray content between blocks changes
nothing. -/
theorem splitRun_junk (ls : List String) :
    ∀ st : SplitState, st.inModel = false → st.sawModel = true →
      (∀ l ∈ ls, isModelLine l = false ∧ isEndmdlLine l = false) →
      ls.foldl splitStep st = st := by
  induction ls with
  | nil => intro st _ _ _; rfl
  | cons l t ih =>
    intro st hi hs hml
    obtain ⟨hm, he⟩ := hml l (by simp)
    have hstep : splitStep st l = st := by
      unfold splitStep
      rw [hm, he]
      simp [hs, hi]
    rw [List.foldl_cons, hstep, ih _ hi hs (fun x hx => hml x (by simp [hx]))]

/-- Running the splitter over one well-formed block flushes exactly one
pose holding `header ++ body ++ ["ENDMDL"]`. -/
theorem splitRun_block (m : String) (b : List String) (e : String)
    (j : List String) (st : SplitState)
    (hi : st.inModel = false) (hc : st.current = [])
    (hm : isModelLine m = true) (he : isEndmdlLine e = true) (hb : b ≠ [])
    (hbl : ∀ l ∈ b, isModelLine l = false ∧ isEndmdlLine l = false)
    (hjl : ∀ l ∈ j, isModelLine l = false ∧ isEndmdlLine l = false) :
    (m :: (b ++ e :: j)).foldl splitStep st =
      { produced := st.produced ++
          [(st.modelIdx + 1, st.header ++ b ++ ["ENDMDL"])],
        header := st.header,
        current := [],
        modelIdx := st.modelIdx + 1,
        inModel := false,
        sawModel := true } := by
  obtain ⟨p, hd, c, k, im, sm⟩ := st
  have hi' : im = false := hi
  have hc' : c = [] := hc
  subst hi'
  subst hc'
  have h1 : splitStep ⟨p, hd, [], k, false, sm⟩ m = ⟨p, hd, [], k, true, true⟩ := by
    unfold splitStep flushPose
    rw [if_pos hm, if_neg (by simp)]
  rw [List.foldl_cons, h1, List.foldl_append, splitRun_body b _ rfl rfl hbl]
  have hmid : ({ (⟨p, hd, [], k, true, true⟩ : SplitState) with
      current := (⟨p, hd, [], k, true, true⟩ : SplitState).current ++ b }) =
      (⟨p, hd, b, k, true, true⟩ : SplitState) := by
    simp
  rw [hmid]
  have h2 : splitStep ⟨p, hd, b, k, true, true⟩ e =
      ⟨p ++ [(k + 1, hd ++ b ++ ["ENDMDL"])], hd, [], k + 1, false, true⟩ := by
    unfold splitStep flushPose
    rw [if_neg (by simp [endmdl_not_model he]), if_pos he,
      if_pos (by exact ⟨rfl, hb⟩)]
  rw [List.foldl_cons, h2, splitRun_junk j _ rfl rfl hjl]

/-- Running the splitter over a list of well-formed blocks flushes one pose
per block, numbered consecutively. -/
theorem splitRun_blocks
    (blocks : List (String × List String × String × List String)) :
    ∀ st : SplitState, st.inModel = false → st.current = [] →
      (∀ blk ∈ blocks, GoodBlock blk) →
      ((blocks.map blockLines).flatten).foldl splitStep st =
        { produced := st.produced ++
            ((blocks.enumFrom st.modelIdx).map fun pr =>
              (pr.1 + 1, st.header ++ blockBody pr.2 ++ ["ENDMDL"])),
          header := st.header,
          current := [],
          modelIdx := st.modelIdx + blocks.length,
          inModel := false,
          sawModel := if blocks.isEmpty then st.sawModel else true } := by
  induction blocks with
  | nil =>
    intro st hi hc _
    obtain ⟨p, hd, c, k, im, sm⟩ := st
    have hi' : im = false := hi
    have hc' : c = [] := hc
    subst hi'
    subst hc'
    simp
  | cons blk rest ih =>
    intro st hi hc hgood
    obtain ⟨m, b, e, j⟩ := blk
    obtain ⟨hm, he, hb, hbl, hjl⟩ := hgood (m, b, e, j) (by simp)
    rw [List.map_cons, List.flatten_cons, List.foldl_append,
      show blockLines (m, b, e, j) = m :: (b ++ e :: j) from rfl,
      splitRun_block m b e j st hi hc hm he hb hbl hjl,
      ih _ rfl rfl (fun x hx => hgood x (by simp [hx]))]
    simp only [List.enumFrom_cons, List.map_cons, List.length_cons,
      List.isEmpty_cons, SplitState.mk.injEq]
    refine ⟨?_, trivial, trivial, by omega, trivial, by simp⟩
    rw [List.append_assoc]
    rfl

/-- C3 (amended): for a possibly empty shared header followed by `N ≥ 1`
well-formed nonempty-body `MODEL..ENDMDL` blocks, the splitter emits
exactly `N` poses numbered `1..N` in encounter order; each pose holds the
shared header, then that block's own body lines, then one closing `ENDMDL`
line; content between an `ENDMDL` and the next `MODEL` is discarded.  (As
stated the claim fails twice: each pose also ends with the `ENDMDL`
terminator the code appends, and at `N = 0` the fallback emits one pose.) -/
theorem C3_split_blocks (header : List String)
    (blocks : List (String × List String × String × List String))
    (hne : blocks ≠ [])
    (hh : ∀ l ∈ header, isModelLine l = false ∧ isEndmdlLine l = false)
    (hgood : ∀ blk ∈ blocks, GoodBlock blk) :
    split_pdbqt_models (blocksInput header blocks) =
      blocks.enum.map fun pr =>
        (pr.1 + 1, header ++ blockBody pr.2 ++ ["ENDMDL"]) := by
  unfold split_pdbqt_models blocksInput
  rw [List.foldl_append, splitRun_header header initSplit rfl hh,
    splitRun_blocks blocks _ rfl rfl hgood]
  rw [flushPose_id _ rfl]
  rw [if_neg (by simp [initSplit, hne])]
  rw [List.enum_eq_enumFrom]
  simp [initSplit]

/-- C3 witness: one header line and one single-atom block split into one
pose. -/
theorem C3_witness :
    split_pdbqt_models
        (blocksInput ["REMARK w"] [("MODEL 1", [atomOk60], "ENDMDL", [])]) =
      ([("MODEL 1", [atomOk60], "ENDMDL", ([] : List String))] :
        List (String × List String × String × List String)).enum.map fun pr =>
          (pr.1 + 1, ["REMARK w"] ++ blockBody pr.2 ++ ["ENDMDL"]) :=
  C3_split_blocks ["REMARK w"] [("MODEL 1", [atomOk60], "ENDMDL", [])]
    (by decide) (by decide) (by decide)

/-- C3 counterexample: the claim's pose content omits the closing `ENDMDL`
the code writes, and at zero blocks (header-only input) the code still
emits one pose instead of zero. -/
theorem C3_counterexample :
    split_pdbqt_models ["HEADER h", "MODEL 1", atomOk60, "ENDMDL"] =
        [(1, ["HEADER h", atomOk60, "ENDMDL"])] ∧
      ([(1, ["HEADER h", atomOk60, "ENDMDL"])] : List (Nat × List String)) ≠
        [(1, ["HEADER h", atomOk60])] ∧
      split_pdbqt_models ["HEADER only"] = [(1, ["HEADER only"])] ∧
      ([(1, ["HEADER only"])] : List (Nat × List String)) ≠ [] := by
  exact ⟨by decide, by decide, by decide, by decide⟩

/-! ## C7: merged complex layout -/

/-- A non-atom ligand line passes through the merger unchanged. -/
theorem mergeTransformLine_other (lc : Char) (ln : String)
    (ha : isAtomLine ln = false) : mergeTransformLine lc ln = ln := by
  unfold mergeTransformLine
  rw [ha]
  simp

/-- A transformed ligand atom line of width at least 22 starts with
`HETATM` and carries the chosen chain in column 22 (index 21). -/
theorem mergeTransformLine_atom (lc : Char) (ln : String)
    (ha : isAtomLine ln = true) (hlen : 22 ≤ strLen ln) :
    pyStarts (mergeTransformLine lc ln) "HETATM" = true ∧
    charAt (mergeTransformLine lc ln) 21 = lc := by
  have hlen' : 22 ≤ ln.data.length := hlen
  have h6 : 6 < strLen ln := by omega
  have hrest : mergeRest ln = pyDrop ln 6 := if_pos h6
  have hn1data : (mergeN1 ln).data = "HETATM".data ++ ln.data.drop 6 := by
    unfold mergeN1
    rw [hrest, String.data_append]
    rfl
  have hn1len : (mergeN1 ln).data.length = ln.data.length := by
    rw [hn1data, List.length_append, List.length_drop,
      (by decide : "HETATM".data.length = 6)]
    omega
  have hn2 : mergeN2 lc ln = spliceChain21 lc (mergeN1 ln) := by
    unfold mergeN2
    rw [if_pos (show 22 ≤ strLen (mergeN1 ln) by unfold strLen; omega)]
  have hn2data : (mergeN2 lc ln).data =
      ((mergeN1 ln).data.take 21 ++ [lc]) ++ (mergeN1 ln).data.drop 22 := by
    rw [hn2]
    rfl
  have htake : (mergeN1 ln).data.take 21 =
      "HETATM".data ++ (ln.data.drop 6).take 15 := by
    rw [hn1data, List.take_append_eq_append_take,
      List.take_of_length_le (by decide : "HETATM".data.length ≤ 21),
      show 21 - "HETATM".data.length = 15 from by decide]
  have htklen : ((mergeN1 ln).data.take 21).length = 21 := by
    rw [List.length_take]
    omega
  have hn2len : 22 ≤ (mergeN2 lc ln).data.length := by
    rw [hn2data, List.length_append, List.length_append, htklen,
      List.length_singleton]
    omega
  have hpre : "HETATM".data <+: (mergeN2 lc ln).data := by
    rw [hn2data, htake]
    simp only [List.append_assoc]
    exact List.prefix_append _ _
  have hfinal : (mergeTransformLine lc ln).data =
      (mergeN2 lc ln).data ++
        List.replicate (80 - (mergeN2 lc ln).data.length) ' ' ∨
      (mergeTransformLine lc ln).data = (mergeN2 lc ln).data := by
    unfold mergeTransformLine pad80
    rw [ha, if_pos rfl]
    by_cases h80 : strLen (mergeN2 lc ln) < 80
    · rw [if_pos h80]
      exact Or.inl rfl
    · rw [if_neg h80]
      exact Or.inr rfl
  constructor
  · unfold pyStarts
    rcases hfinal with hf | hf <;> rw [hf, List.isPrefixOf_iff_prefix]
    · exact hpre.trans (List.prefix_append _ _)
    · exact hpre
  · unfold charAt
    have hlcat : ((mergeN1 ln).data.take 21 ++ [lc]).length = 22 := by
      rw [List.length_append, htklen, List.length_singleton]
    have hmid : (mergeN2 lc ln).data.getD 21 ' ' = lc := by
      rw [hn2data,
        List.getD_append ((mergeN1 ln).data.take 21 ++ [lc])
          ((mergeN1 ln).data.drop 22) ' ' 21 (by omega),
        List.getD_append_right ((mergeN1 ln).data.take 21) [lc] ' ' 21 htklen.le]
      rw [htklen]
      rfl
    rcases hfinal with hf | hf <;> rw [hf]
    · have h21 : 21 < (mergeN2 lc ln).data.length := by omega
      rw [List.getD_append _ _ _ _ h21]
      exact hmid
    · exact hmid

/-- C7 (amended): when the merger succeeds, the output is the receptor's
lines verbatim with `MODEL`/`ENDMDL`/`END`-prefixed lines stripped
(pre-existing `TER` lines are kept — `read_atoms` does not filter them),
then one separator `TER`, then the ligand's kept lines where every atom
line is coerced to `HETATM`, given the chosen collision-free chain id at
column 22 when at least 22 characters wide, and padded to width 80, then a
single final `END`. -/
theorem C7_merge_layout (receptor ligand : List String) (pref : Char)
    (out : List String)
    (h : merge_receptor_and_ligand receptor ligand pref = some out) :
    ∃ lc, lc ∉ chainIds receptor ∧
      out = receptor.filter keepMergeLine ++ ["TER"] ++
        (ligand.filter keepMergeLine).map (mergeTransformLine lc) ++ ["END"] ∧
      (∀ ln, isAtomLine ln = false → mergeTransformLine lc ln = ln) ∧
      (∀ ln, isAtomLine ln = true → 22 ≤ strLen ln →
        pyStarts (mergeTransformLine lc ln) "HETATM" = true ∧
        charAt (mergeTransformLine lc ln) 21 = lc) := by
  unfold merge_receptor_and_ligand at h
  rcases hch : mergeLigChain (chainIds receptor) pref with _ | lc <;> rw [hch] at h
  · cases h
  · exact ⟨lc, mergeLigChain_not_mem _ _ _ hch, (Option.some.inj h).symm,
      fun ln ha => mergeTransformLine_other lc ln ha,
      fun ln ha hl => mergeTransformLine_atom lc ln ha hl⟩

/-- C7 witness: a one-line receptor and one-line ligand merge into the
described layout. -/
theorem C7_witness :
    ∃ lc, lc ∉ chainIds [chainLine 'B'] ∧
      [chainLine 'B', "TER", mergeTransformLine 'L' hetOk55, "END"] =
        [chainLine 'B'].filter keepMergeLine ++ ["TER"] ++
          ([hetOk55].filter keepMergeLine).map (mergeTransformLine lc) ++ ["END"] ∧
      (∀ ln, isAtomLine ln = false → mergeTransformLine lc ln = ln) ∧
      (∀ ln, isAtomLine ln = true → 22 ≤ strLen ln →
        pyStarts (mergeTransformLine lc ln) "HETATM" = true ∧
        charAt (mergeTransformLine lc ln) 21 = lc) :=
  C7_merge_layout [chainLine 'B'] [hetOk55] 'L'
    [chainLine 'B', "TER", mergeTransformLine 'L' hetOk55, "END"] (by decide)

/-- C7 counterexample: the receptor's pre-existing `TER` is NOT stripped
(the output carries two `TER` lines), and a 4-character ligand `ATOM` line
is coerced and padded but gets no chain id — column 22 stays blank. -/
theorem C7_counterexample :
    merge_receptor_and_ligand [chainLine 'A', "TER"] ["ATOM"] 'L' =
        some [chainLine 'A', "TER", "TER", ljust80 "HETATM", "END"] ∧
      charAt (ljust80 "HETATM") 21 = ' ' ∧
      ('L' : Char) ≠ ' ' := by
  exact ⟨by decide, by decide, by decide⟩

end FrameworkVS
